import Mathlib

/-!
Verification development for the Hotel Booking room-allocation engine
(`bookRoom.py`, with request-shape context from `bookingRouter.py`).

The Python `Hotel` class keeps a single mutable dictionary
`available_rooms : room id → is-free` (insertion ordered).  We embed it as
an insertion-ordered association list over `Int` keys, and each mutating
method becomes a pure function from the inventory (and its arguments) to a
result value together with the successor inventory.
-/

namespace HotelBooking

/-- Booking classification, mirroring `BookingType` in `bookRoom.py`. -/
inductive BookingType where
  | singleFloor
  | multiFloor
deriving DecidableEq

/-- Success payload of a booking, mirroring the Python result dictionary
with keys `booked_rooms`, `travel_time`, `booking_type`.  Travel times in
the code are non-negative integers, so we use `Nat`. -/
structure BookingResult where
  booked_rooms : List Int
  travel_time : Nat
  booking_type : BookingType
deriving DecidableEq

/-- The `available_rooms` dictionary: an insertion-ordered association
list from room identifier to the "is free" boolean, modelling a Python
`dict`. -/
abbrev Inventory := List (Int × Bool)

/-- Python `d.get(k, default)`: value of the first entry with key `k`,
or `default` when `k` is absent. -/
def dictGet (d : Inventory) (k : Int) (default : Bool) : Bool :=
  match d.find? (fun p => p.1 == k) with
  | some p => p.2
  | none => default

/-- Python `k in d`. -/
def dictContains (d : Inventory) (k : Int) : Bool :=
  d.any (fun p => p.1 == k)

/-- Python `d[k] = v`: replace the value at the first entry with key `k`
(keeping its position), or append a fresh entry at the end when `k` is
absent. -/
def dictSet (d : Inventory) (k : Int) (v : Bool) : Inventory :=
  match d with
  | [] => [(k, v)]
  | p :: rest => if p.1 == k then (k, v) :: rest else p :: dictSet rest k v

/-- The dictionary's keys, in insertion order. -/
def dictKeys (d : Inventory) : List Int := d.map Prod.fst

/-- `self.floors = 10`. -/
def floors : Nat := 10

/-- `self.rooms_per_floor = [10] * 9 + [7]`: 10 rooms on floors 1-9,
7 rooms on floor 10. -/
def rooms_per_floor : List Nat := [10, 10, 10, 10, 10, 10, 10, 10, 10, 7]

/-- `Hotel._initialize_rooms`: every valid identifier
`floor * 100 + room` (room in `[1, rooms_per_floor[floor-1]]`) mapped to
free.  The Python code fills an empty dict in this nested-loop order, so
the insertion-ordered association list is exactly this flat list. -/
def initialize_rooms : Inventory :=
  (List.range floors).flatMap (fun fi =>
    (List.range (rooms_per_floor.getD fi 0)).map (fun ri =>
      (((fi + 1 : Nat) : Int) * 100 + ((ri + 1 : Nat) : Int), true)))

/-- `Hotel._travel_time`: decode `floor, room_num = divmod(room, 100)`;
cost = `2 * |Δfloor| + |Δposition|`.  Python's `divmod` with a positive
divisor is Euclidean division, i.e. `Int./` and `Int.%` here. -/
def travel_time (room1 room2 : Int) : Nat :=
  let floor1 := room1 / 100
  let room_num1 := room1 % 100
  let floor2 := room2 / 100
  let room_num2 := room2 % 100
  (floor1 - floor2).natAbs * 2 + (room_num1 - room_num2).natAbs

/-- `Hotel._get_available_rooms_on_floor`: the floor's room identifiers
in ascending position order, filtered by `available_rooms.get(id, False)`. -/
def get_available_rooms_on_floor (inv : Inventory) (floor : Nat) : List Int :=
  (List.range (rooms_per_floor.getD (floor - 1) 0)).filterMap (fun ri =>
    if dictGet inv (((floor : Nat) : Int) * 100 + ((ri + 1 : Nat) : Int)) false
    then some (((floor : Nat) : Int) * 100 + ((ri + 1 : Nat) : Int)) else none)

/-- All contiguous windows of length `n`, in ascending start order:
`rooms[i:i+n]` for `i in range(len(rooms) - n + 1)`.  Callers guard
`n ≤ l.length`, matching the Python guards. -/
def windows (l : List Int) (n : Nat) : List (List Int) :=
  (List.range (l.length - n + 1)).map (fun i => (l.drop i).take n)

/-- Cost of a candidate window: `travel_time(rooms[0], rooms[-1])`.
Every window the code scores is non-empty, so the defaults are inert. -/
def score (w : List Int) : Nat := travel_time (w.headD 0) (w.getLastD 0)

/-- One iteration of the `if time < min_time` minimum-tracking loop shared
by both search routines; `none` plays the role of `float('inf')`. -/
def consider (acc : List Int × Option Nat) (w : List Int) : List Int × Option Nat :=
  match acc.2 with
  | none => (w, some (score w))
  | some m => if score w < m then (w, some (score w)) else acc

/-- Running the minimum-tracking loop from `best_rooms = []`,
`min_time = inf` over a candidate list. -/
def selectBest (cs : List (List Int)) : List Int × Option Nat :=
  cs.foldl consider ([], none)

/-- The windows contributed by floor index `fi` (floor `fi + 1`) in
`_find_best_rooms_single_floor`: all length-`n` windows of the floor's
free-room list, provided that list has at least `n` entries. -/
def floorWindows (inv : Inventory) (n : Nat) (fi : Nat) : List (List Int) :=
  if n ≤ (get_available_rooms_on_floor inv (fi + 1)).length
  then windows (get_available_rooms_on_floor inv (fi + 1)) n else []

/-- Every candidate window scanned by the single-floor search, in the
scan order: ascending floor, then ascending window start. -/
def singleFloorCandidates (inv : Inventory) (n : Nat) : List (List Int) :=
  (List.range floors).flatMap (floorWindows inv n)

/-- `Hotel._find_best_rooms_single_floor`: for each floor in ascending
order, if its free-room list has at least `num_rooms` entries, scan all
contiguous windows, tracking the global strict minimum cost. -/
def find_best_rooms_single_floor (inv : Inventory) (num_rooms : Nat) :
    List Int × Option Nat :=
  (List.range floors).foldl
    (fun acc fi =>
      if num_rooms ≤ (get_available_rooms_on_floor inv (fi + 1)).length then
        (windows (get_available_rooms_on_floor inv (fi + 1)) num_rooms).foldl consider acc
      else acc)
    ([], none)

/-- Python's `list.sort()` / `sorted` on a list of integers: ascending
order.  A list of integers has a unique ascending reordering, so this
structurally-recursive insertion step is observationally the sort the
code performs. -/
def insertSorted (x : Int) : List Int → List Int
  | [] => [x]
  | y :: ys => if x ≤ y then x :: y :: ys else y :: insertSorted x ys

/-- Ascending sort of an integer list (Python `sorted`). -/
def sortInts (l : List Int) : List Int := l.foldr insertSorted []

/-- `Hotel._find_best_rooms_multi_floor`: concatenate every floor's
free-room list, fail (empty set, infinite cost) when fewer than
`num_rooms` rooms are free in total, otherwise sort and scan every
contiguous window with the same minimum-tracking loop. -/
def find_best_rooms_multi_floor (inv : Inventory) (num_rooms : Nat) :
    List Int × Option Nat :=
  if ((List.range floors).flatMap
        (fun fi => get_available_rooms_on_floor inv (fi + 1))).length < num_rooms
  then ([], none)
  else (windows (sortInts ((List.range floors).flatMap
          (fun fi => get_available_rooms_on_floor inv (fi + 1)))) num_rooms).foldl
        consider ([], none)

/-- `Hotel.book_rooms`: reject counts outside 1..5, try the single-floor
search, fall back to the multi-floor search, mark the winning set
occupied.  The error strings are the Python ones. -/
def book_rooms (inv : Inventory) (num_rooms : Int) :
    Except String BookingResult × Inventory :=
  if num_rooms > 5 then (Except.error "Maximum 5 rooms per booking allowed.", inv)
  else if num_rooms ≤ 0 then (Except.error "Invalid number of rooms requested.", inv)
  else if (find_best_rooms_single_floor inv num_rooms.toNat).1.isEmpty then
    if (find_best_rooms_multi_floor inv num_rooms.toNat).1.isEmpty then
      (Except.error "Not enough rooms available for booking.", inv)
    else
      (Except.ok ⟨(find_best_rooms_multi_floor inv num_rooms.toNat).1,
          (find_best_rooms_multi_floor inv num_rooms.toNat).2.getD 0,
          BookingType.multiFloor⟩,
       (find_best_rooms_multi_floor inv num_rooms.toNat).1.foldl
         (fun d r => dictSet d r false) inv)
  else
    (Except.ok ⟨(find_best_rooms_single_floor inv num_rooms.toNat).1,
        (find_best_rooms_single_floor inv num_rooms.toNat).2.getD 0,
        BookingType.singleFloor⟩,
     (find_best_rooms_single_floor inv num_rooms.toNat).1.foldl
       (fun d r => dictSet d r false) inv)

/-- `Hotel.book_specific_rooms`: reject (before any mutation) on the
first requested room that is absent from the dictionary or not free;
otherwise score the extremes of the sorted request, mark every requested
room occupied, and classify by the number of distinct floors
(`set(room // 100 for room in rooms)`). -/
def book_specific_rooms (inv : Inventory) (rooms : List Int) :
    Except String BookingResult × Inventory :=
  match rooms.find? (fun room => !(dictContains inv room) || !(dictGet inv room false)) with
  | some room =>
      (Except.error ("Room " ++ toString room ++ " is not available."), inv)
  | none =>
      (Except.ok ⟨rooms,
          (if rooms.length > 1 then
            travel_time ((sortInts rooms).headD 0) ((sortInts rooms).getLastD 0)
          else 0),
          (if ((rooms.map (fun room => room / 100)).dedup).length = 1
           then BookingType.singleFloor else BookingType.multiFloor)⟩,
       rooms.foldl (fun d r => dictSet d r false) inv)

/-- `Hotel.cancel_booking`: walk the batch in order, marking each known
room free as it is reached; stop with an error (the success message is
dropped) at the first unknown identifier, keeping the mutations already
made. -/
def cancel_booking (inv : Inventory) (rooms : List Int) :
    Except String Unit × Inventory :=
  match rooms with
  | [] => (Except.ok (), inv)
  | room :: rest =>
      if dictContains inv room then cancel_booking (dictSet inv room true) rest
      else (Except.error ("Room " ++ toString room ++ " is not a valid room."), inv)

/-- `Hotel.get_available_rooms`: the dictionary itself. -/
def get_available_rooms (inv : Inventory) : Inventory := inv

/-- `Hotel.generate_random_occupancy`: for each existing key, overwrite
its value with a coin flip.  The random source is injected as an oracle
from room identifier to boolean. -/
def generate_random_occupancy (inv : Inventory) (rand : Int → Bool) : Inventory :=
  (dictKeys inv).foldl (fun d room => dictSet d room (rand room)) inv

/-- `Hotel.reset`: replace the dictionary with a freshly initialized one. -/
def reset (_inv : Inventory) : Inventory := initialize_rooms

/-- A reachable state used in concrete counterexamples: the fresh hotel
after `book_specific_rooms([101])`, i.e. room 101 occupied, all else free. -/
def occupied101 : Inventory := (book_specific_rooms initialize_rooms [101]).2

/-- Modelled from the spec: the set of valid room identifiers of the
fixed topology, "floor*100 + index, index in [1, RoomsPerFloor[floor]],
floors 1-10 with 10 rooms on floors 1-9 and 7 on floor 10". -/
def specValidRoomId (r : Int) : Prop :=
  ∃ f p : Nat, 1 ≤ f ∧ f ≤ 10 ∧ 1 ≤ p ∧
    p ≤ (if f ≤ 9 then 10 else 7) ∧ r = (f : Int) * 100 + (p : Int)

end HotelBooking

deriving instance DecidableEq for Except

set_option maxRecDepth 1000000

namespace HotelBooking


theorem dictGet_nil (k : Int) (w : Bool) : dictGet [] k w = w := rfl

theorem dictGet_cons (q : Int × Bool) (rest : Inventory) (k : Int) (w : Bool) :
    dictGet (q :: rest) k w = if q.1 = k then q.2 else dictGet rest k w := by
  by_cases h : q.1 = k
  · have hb : (q.1 == k) = true := by simp [h]
    simp [dictGet, List.find?, hb, h]
  · have hb : (q.1 == k) = false := by simp [h]
    simp [dictGet, List.find?, hb, h]

theorem dictContains_nil (k : Int) : dictContains [] k = false := rfl

theorem dictContains_cons (q : Int × Bool) (rest : Inventory) (k : Int) :
    dictContains (q :: rest) k = (q.1 == k || dictContains rest k) := by
  simp [dictContains]

theorem dictKeys_nil : dictKeys [] = [] := rfl

theorem dictKeys_cons (q : Int × Bool) (rest : Inventory) :
    dictKeys (q :: rest) = q.1 :: dictKeys rest := rfl

theorem dictSet_nil (k : Int) (v : Bool) : dictSet [] k v = [(k, v)] := rfl

theorem dictSet_cons_hit (p : Int × Bool) (rest : Inventory) (k : Int) (v : Bool)
    (h : p.1 = k) : dictSet (p :: rest) k v = (k, v) :: rest := by
  have hb : (p.1 == k) = true := by simp [h]
  simp [dictSet, hb]

theorem dictSet_cons_miss (p : Int × Bool) (rest : Inventory) (k : Int) (v : Bool)
    (h : ¬ p.1 = k) : dictSet (p :: rest) k v = p :: dictSet rest k v := by
  have hb : (p.1 == k) = false := by simp [h]
  simp [dictSet, hb]

theorem dictGet_dictSet (d : Inventory) (k k' : Int) (v w : Bool) :
    dictGet (dictSet d k v) k' w = if k' = k then v else dictGet d k' w := by
  induction d with
  | nil =>
      rw [dictSet_nil, dictGet_cons, dictGet_nil]
      by_cases h : k' = k
      · simp [h]
      · have hne : ¬ k = k' := fun hh => h hh.symm
        simp [h, hne]
  | cons p rest ih =>
      by_cases hp : p.1 = k
      · rw [dictSet_cons_hit p rest k v hp, dictGet_cons, dictGet_cons, hp]
        by_cases h : k' = k
        · simp [h]
        · have hne : ¬ k = k' := fun hh => h hh.symm
          simp [h, hne]
      · rw [dictSet_cons_miss p rest k v hp, dictGet_cons, dictGet_cons, ih]
        by_cases hq : p.1 = k'
        · have hne : ¬ k' = k := fun hh => hp (hh ▸ hq)
          simp [hq, hne]
        · simp [hq]

theorem dictContains_dictSet (d : Inventory) (k k' : Int) (v : Bool) :
    dictContains (dictSet d k v) k' = true ↔
      (dictContains d k' = true ∨ k' = k) := by
  induction d with
  | nil =>
      rw [dictSet_nil, dictContains_cons, dictContains_nil]
      simp only [Bool.or_eq_true, beq_iff_eq, Bool.false_eq_true, or_false, false_or]
      exact eq_comm
  | cons p rest ih =>
      by_cases hp : p.1 = k
      · rw [dictSet_cons_hit p rest k v hp, dictContains_cons, dictContains_cons, hp]
        simp only [Bool.or_eq_true, beq_iff_eq]
        constructor
        · exact fun hh => Or.inl hh
        · rintro (hh | hh)
          · exact hh
          · exact Or.inl hh.symm
      · rw [dictSet_cons_miss p rest k v hp, dictContains_cons, dictContains_cons]
        simp only [Bool.or_eq_true, ih]
        tauto

theorem dictKeys_dictSet (d : Inventory) (k : Int) (v : Bool)
    (h : dictContains d k = true) : dictKeys (dictSet d k v) = dictKeys d := by
  induction d with
  | nil => simp [dictContains_nil] at h
  | cons p rest ih =>
      by_cases hp : p.1 = k
      · rw [dictSet_cons_hit p rest k v hp, dictKeys_cons, dictKeys_cons, hp]
      · have h' : dictContains rest k = true := by
          rw [dictContains_cons] at h
          have hb : (p.1 == k) = false := by simp [hp]
          simpa [hb] using h
        rw [dictSet_cons_miss p rest k v hp, dictKeys_cons, dictKeys_cons, ih h']

theorem dictContains_iff_mem_keys (d : Inventory) (k : Int) :
    dictContains d k = true ↔ k ∈ dictKeys d := by
  induction d with
  | nil => simp [dictContains_nil, dictKeys_nil]
  | cons p rest ih =>
      rw [dictContains_cons, dictKeys_cons]
      simp only [Bool.or_eq_true, beq_iff_eq, List.mem_cons, ih]
      constructor
      · rintro (hh | hh)
        · exact Or.inl hh.symm
        · exact Or.inr hh
      · rintro (hh | hh)
        · exact Or.inl hh.symm
        · exact Or.inr hh

theorem dictContains_eq_of_keys_eq (d₁ d₂ : Inventory) (k : Int)
    (h : dictKeys d₁ = dictKeys d₂) : dictContains d₁ k = dictContains d₂ k := by
  have hiff : dictContains d₁ k = true ↔ dictContains d₂ k = true := by
    rw [dictContains_iff_mem_keys, dictContains_iff_mem_keys, h]
  cases h1 : dictContains d₁ k <;> cases h2 : dictContains d₂ k
  · rfl
  · exact absurd (hiff.mpr h2) (by simp [h1])
  · exact absurd (hiff.mp h1) (by simp [h2])
  · rfl

theorem dictContains_of_dictGet_true (d : Inventory) (k : Int)
    (h : dictGet d k false = true) : dictContains d k = true := by
  induction d with
  | nil => simp [dictGet_nil] at h
  | cons p rest ih =>
      rw [dictGet_cons] at h
      rw [dictContains_cons]
      by_cases hp : p.1 = k
      · simp [hp]
      · simp only [hp, if_false] at h
        simp [hp, ih h]

theorem dictGet_foldl_dictSet (rooms : List Int) (inv : Inventory) (v : Bool)
    (k : Int) (w : Bool) :
    dictGet (rooms.foldl (fun d r => dictSet d r v) inv) k w =
      if k ∈ rooms then v else dictGet inv k w := by
  induction rooms generalizing inv with
  | nil => simp
  | cons r rs ih =>
      simp only [List.foldl_cons]
      rw [ih]
      by_cases hk : k ∈ rs
      · simp [hk]
      · by_cases hr : k = r <;> simp [hk, hr, dictGet_dictSet]

theorem dictKeys_foldl_dictSet (rooms : List Int) (inv : Inventory) (f : Int → Bool)
    (h : ∀ r ∈ rooms, dictContains inv r = true) :
    dictKeys (rooms.foldl (fun d r => dictSet d r (f r)) inv) = dictKeys inv := by
  induction rooms generalizing inv with
  | nil => rfl
  | cons r rs ih =>
      simp only [List.foldl_cons]
      have h1 : dictContains inv r = true := h r (by simp)
      have hkeys : dictKeys (dictSet inv r (f r)) = dictKeys inv :=
        dictKeys_dictSet _ _ _ h1
      have hrest : ∀ x ∈ rs, dictContains (dictSet inv r (f r)) x = true := by
        intro x hx
        rw [dictContains_eq_of_keys_eq _ inv _ hkeys]
        exact h x (by simp [hx])
      rw [ih _ hrest, hkeys]

theorem consider_fresh (w : List Int) :
    consider ([], none) w = (w, some (score w)) := rfl

theorem consider_some (b w : List Int) (m : Nat) :
    consider (b, some m) w = if score w < m then (w, some (score w)) else (b, some m) := rfl

theorem mem_windows (l : List Int) (n : Nat) (w : List Int) (hn : n ≤ l.length) :
    w ∈ windows l n ↔ ∃ i, i + n ≤ l.length ∧ w = (l.drop i).take n := by
  rw [windows]
  simp only [List.mem_map, List.mem_range]
  constructor
  · rintro ⟨i, hi, rfl⟩
    exact ⟨i, by omega, rfl⟩
  · rintro ⟨i, hi, rfl⟩
    exact ⟨i, by omega, rfl⟩

theorem length_of_mem_windows (l : List Int) (n : Nat) (w : List Int)
    (hn : n ≤ l.length) (hw : w ∈ windows l n) : w.length = n := by
  rcases (mem_windows l n w hn).mp hw with ⟨i, hi, rfl⟩
  simp only [List.length_take, List.length_drop]
  omega

theorem subset_of_mem_windows (l : List Int) (n : Nat) (w : List Int)
    (hw : w ∈ windows l n) : ∀ x ∈ w, x ∈ l := by
  rw [windows] at hw
  simp only [List.mem_map, List.mem_range] at hw
  rcases hw with ⟨i, _, rfl⟩
  intro x hx
  exact List.mem_of_mem_drop (List.mem_of_mem_take hx)

theorem windows_ne_nil (l : List Int) (n : Nat) : windows l n ≠ [] := by
  intro h
  have hlen := congrArg List.length h
  simp only [windows, List.length_map, List.length_range, List.length_nil] at hlen
  omega

theorem foldl_consider_firstMin (cs : List (List Int)) (b : List Int) :
    ∃ pre w post, b :: cs = pre ++ w :: post ∧
      cs.foldl consider (b, some (score b)) = (w, some (score w)) ∧
      (∀ c ∈ pre, score w < score c) ∧ (∀ c ∈ post, score w ≤ score c) := by
  induction cs generalizing b with
  | nil =>
      exact ⟨[], b, [], rfl, rfl, by simp, by simp⟩
  | cons c cs ih =>
      rw [List.foldl_cons, consider_some]
      by_cases hlt : score c < score b
      · rw [if_pos hlt]
        rcases ih c with ⟨pre, w, post, hdec, hfold, hpre, hpost⟩
        refine ⟨b :: pre, w, post, by rw [List.cons_append, ← hdec], hfold, ?_, hpost⟩
        intro x hx
        rcases List.mem_cons.mp hx with rfl | hx2
        · have hwc : score w ≤ score c := by
            cases pre with
            | nil =>
                rw [List.nil_append] at hdec
                injection hdec with h1 _
                exact le_of_eq (by rw [h1])
            | cons p pre2 =>
                rw [List.cons_append] at hdec
                injection hdec with h1 _
                have hlt2 := hpre p (by simp)
                rw [← h1] at hlt2
                exact le_of_lt hlt2
          exact lt_of_le_of_lt hwc hlt
        · exact hpre x hx2
      · rw [if_neg hlt]
        rcases ih b with ⟨pre, w, post, hdec, hfold, hpre, hpost⟩
        cases pre with
        | nil =>
            rw [List.nil_append] at hdec
            injection hdec with h1 h2
            refine ⟨[], w, c :: post, ?_, hfold, by simp, ?_⟩
            · rw [List.nil_append, ← h1, ← h2]
            · intro x hx
              rcases List.mem_cons.mp hx with rfl | hx2
              · rw [← h1]
                exact le_of_not_lt hlt
              · exact hpost x hx2
        | cons p pre2 =>
            rw [List.cons_append] at hdec
            injection hdec with h1 h2
            refine ⟨b :: c :: pre2, w, post, ?_, hfold, ?_, hpost⟩
            · rw [List.cons_append, List.cons_append, ← h2]
            · intro x hx
              have hwb : score w < score b := by
                have h3 := hpre p (by simp)
                rw [← h1] at h3
                exact h3
              rcases List.mem_cons.mp hx with rfl | hx2
              · exact hwb
              · rcases List.mem_cons.mp hx2 with rfl | hx3
                · exact lt_of_lt_of_le hwb (le_of_not_lt hlt)
                · exact hpre x (by simp [hx3])

theorem selectBest_nil : selectBest [] = ([], none) := rfl

theorem selectBest_spec (cs : List (List Int)) (h : cs ≠ []) :
    ∃ pre w post, cs = pre ++ w :: post ∧
      selectBest cs = (w, some (score w)) ∧
      (∀ c ∈ pre, score w < score c) ∧ (∀ c ∈ post, score w ≤ score c) := by
  cases cs with
  | nil => exact absurd rfl h
  | cons b cs =>
      have hsel : selectBest (b :: cs) = cs.foldl consider (b, some (score b)) := by
        rw [selectBest, List.foldl_cons, consider_fresh]
      rcases foldl_consider_firstMin cs b with ⟨pre, w, post, hdec, hfold, hpre, hpost⟩
      exact ⟨pre, w, post, hdec, by rw [hsel, hfold], hpre, hpost⟩

theorem score_min_of_decomp (cs pre post : List (List Int)) (w : List Int)
    (hdec : cs = pre ++ w :: post)
    (hpre : ∀ c ∈ pre, score w < score c) (hpost : ∀ c ∈ post, score w ≤ score c) :
    ∀ c ∈ cs, score w ≤ score c := by
  intro c hc
  rw [hdec] at hc
  rcases List.mem_append.mp hc with hc1 | hc2
  · exact le_of_lt (hpre c hc1)
  · rcases List.mem_cons.mp hc2 with rfl | hc3
    · exact le_refl _
    · exact hpost c hc3

theorem foldl_consider_flatten (g : Nat → List (List Int)) (fs : List Nat)
    (acc : List Int × Option Nat) :
    fs.foldl (fun a fi => (g fi).foldl consider a) acc =
      (fs.flatMap g).foldl consider acc := by
  induction fs generalizing acc with
  | nil => rfl
  | cons f fs ih =>
      rw [List.foldl_cons, ih, List.flatMap_cons, List.foldl_append]

theorem find_best_single_eq (inv : Inventory) (n : Nat) :
    find_best_rooms_single_floor inv n = selectBest (singleFloorCandidates inv n) := by
  rw [find_best_rooms_single_floor, singleFloorCandidates, selectBest,
    ← foldl_consider_flatten (floorWindows inv n)]
  congr 1
  funext acc fi
  rw [floorWindows]
  by_cases hc : n ≤ (get_available_rooms_on_floor inv (fi + 1)).length
  · rw [if_pos hc, if_pos hc]
  · rw [if_neg hc, if_neg hc, List.foldl_nil]

theorem mem_get_available_rooms (inv : Inventory) (floor : Nat) (r : Int) :
    r ∈ get_available_rooms_on_floor inv floor ↔
      ∃ pi : Nat, pi < rooms_per_floor.getD (floor - 1) 0 ∧
        r = ((floor : Nat) : Int) * 100 + ((pi + 1 : Nat) : Int) ∧
        dictGet inv r false = true := by
  rw [get_available_rooms_on_floor]
  simp only [List.mem_filterMap, List.mem_range]
  constructor
  · rintro ⟨ri, hri, hsome⟩
    by_cases hg : dictGet inv (((floor : Nat) : Int) * 100 + ((ri + 1 : Nat) : Int)) false = true
    · rw [if_pos hg] at hsome
      have hr := Option.some.inj hsome
      refine ⟨ri, hri, hr.symm, ?_⟩
      rw [← hr]
      exact hg
    · rw [if_neg hg] at hsome
      exact absurd hsome (by simp)
  · rintro ⟨pi, hpi, hr, hget⟩
    subst hr
    exact ⟨pi, hpi, by rw [if_pos hget]⟩

theorem mem_singleFloorCandidates (inv : Inventory) (n : Nat) (c : List Int) :
    c ∈ singleFloorCandidates inv n ↔
      ∃ fi, fi < floors ∧ n ≤ (get_available_rooms_on_floor inv (fi + 1)).length ∧
        c ∈ windows (get_available_rooms_on_floor inv (fi + 1)) n := by
  rw [singleFloorCandidates]
  simp only [List.mem_flatMap, List.mem_range]
  constructor
  · rintro ⟨fi, hfi, hc⟩
    rw [floorWindows] at hc
    by_cases hn : n ≤ (get_available_rooms_on_floor inv (fi + 1)).length
    · rw [if_pos hn] at hc
      exact ⟨fi, hfi, hn, hc⟩
    · rw [if_neg hn] at hc
      exact absurd hc (List.not_mem_nil c)
  · rintro ⟨fi, hfi, hn, hc⟩
    refine ⟨fi, hfi, ?_⟩
    rw [floorWindows, if_pos hn]
    exact hc

theorem free_of_mem_candidates (inv : Inventory) (n : Nat) (c : List Int)
    (hc : c ∈ singleFloorCandidates inv n) :
    ∀ r ∈ c, dictGet inv r false = true := by
  rcases (mem_singleFloorCandidates inv n c).mp hc with ⟨fi, hfi, hn, hw⟩
  intro r hr
  have hmem := subset_of_mem_windows _ _ _ hw r hr
  rcases (mem_get_available_rooms inv (fi + 1) r).mp hmem with ⟨pi, _, _, hget⟩
  exact hget

theorem length_of_mem_candidates (inv : Inventory) (n : Nat) (c : List Int)
    (hc : c ∈ singleFloorCandidates inv n) : c.length = n := by
  rcases (mem_singleFloorCandidates inv n c).mp hc with ⟨fi, hfi, hn, hw⟩
  exact length_of_mem_windows _ _ _ hn hw

theorem rooms_per_floor_le (fi : Nat) (hfi : fi < floors) :
    rooms_per_floor.getD fi 0 ≤ 10 := by
  have hfi10 : fi < 10 := hfi
  interval_cases fi <;> decide

theorem floor_of_mem_avail (inv : Inventory) (fi : Nat) (hfi : fi < floors) (r : Int)
    (hr : r ∈ get_available_rooms_on_floor inv (fi + 1)) :
    r / 100 = ((fi + 1 : Nat) : Int) := by
  rcases (mem_get_available_rooms inv (fi + 1) r).mp hr with ⟨pi, hpi, hre, _⟩
  rw [Nat.add_sub_cancel] at hpi
  have hcount := rooms_per_floor_le fi hfi
  have hpi10 : pi < 10 := lt_of_lt_of_le hpi hcount
  subst hre
  omega

theorem floor_of_mem_candidates (inv : Inventory) (n : Nat) (c : List Int)
    (hc : c ∈ singleFloorCandidates inv n) :
    ∃ g : Int, ∀ r ∈ c, r / 100 = g := by
  rcases (mem_singleFloorCandidates inv n c).mp hc with ⟨fi, hfi, hn, hw⟩
  refine ⟨((fi + 1 : Nat) : Int), ?_⟩
  intro r hr
  exact floor_of_mem_avail inv fi hfi r (subset_of_mem_windows _ _ _ hw r hr)

theorem singleFloorCandidates_eq_nil_iff (inv : Inventory) (n : Nat) :
    singleFloorCandidates inv n = [] ↔
      ∀ fi, fi < floors → (get_available_rooms_on_floor inv (fi + 1)).length < n := by
  rw [singleFloorCandidates]
  rw [List.flatMap_eq_nil_iff]
  constructor
  · intro h fi hfi
    have hnil := h fi (by simpa using hfi)
    rw [floorWindows] at hnil
    by_cases hn : n ≤ (get_available_rooms_on_floor inv (fi + 1)).length
    · rw [if_pos hn] at hnil
      exact absurd hnil (windows_ne_nil _ _)
    · omega
  · intro h fi hfi
    rw [floorWindows, if_neg]
    have := h fi (by simpa using hfi)
    omega

theorem sortInts_cons (y : Int) (ys : List Int) :
    sortInts (y :: ys) = insertSorted y (sortInts ys) := rfl

theorem mem_insertSorted (x y : Int) (l : List Int) :
    y ∈ insertSorted x l ↔ y = x ∨ y ∈ l := by
  induction l with
  | nil => simp [insertSorted]
  | cons z zs ih =>
      rw [insertSorted]
      by_cases h : x ≤ z
      · rw [if_pos h]
        simp [List.mem_cons]
      · rw [if_neg h]
        simp only [List.mem_cons, ih]
        tauto

theorem mem_sortInts (x : Int) (l : List Int) : x ∈ sortInts l ↔ x ∈ l := by
  induction l with
  | nil => simp [sortInts]
  | cons y ys ih =>
      rw [sortInts_cons, mem_insertSorted, ih, List.mem_cons]

theorem mem_of_decomp (cs pre post : List (List Int)) (w : List Int)
    (hdec : cs = pre ++ w :: post) : w ∈ cs := by
  rw [hdec]
  exact List.mem_append_right _ (List.mem_cons_self _ _)

theorem free_of_single_result (inv : Inventory) (n : Nat) (r : Int)
    (hr : r ∈ (find_best_rooms_single_floor inv n).1) :
    dictGet inv r false = true := by
  rw [find_best_single_eq] at hr
  by_cases hnil : singleFloorCandidates inv n = []
  · rw [hnil, selectBest_nil] at hr
    exact absurd hr (List.not_mem_nil r)
  · rcases selectBest_spec _ hnil with ⟨pre, w, post, hdec, hfold, _, _⟩
    rw [hfold] at hr
    exact free_of_mem_candidates inv n w (mem_of_decomp _ _ _ _ hdec) r hr

theorem free_of_multi_result (inv : Inventory) (n : Nat) (r : Int)
    (hr : r ∈ (find_best_rooms_multi_floor inv n).1) :
    dictGet inv r false = true := by
  rw [find_best_rooms_multi_floor] at hr
  by_cases hlen :
      ((List.range floors).flatMap
        (fun fi => get_available_rooms_on_floor inv (fi + 1))).length < n
  · rw [if_pos hlen] at hr
    exact absurd hr (List.not_mem_nil r)
  · rw [if_neg hlen] at hr
    have hsel : ∀ cs : List (List Int), cs.foldl consider ([], none) = selectBest cs :=
      fun _ => rfl
    rw [hsel] at hr
    rcases selectBest_spec _ (windows_ne_nil _ _) with ⟨pre, w, post, hdec, hfold, _, _⟩
    rw [hfold] at hr
    have hmem := subset_of_mem_windows _ _ _ (mem_of_decomp _ _ _ _ hdec) r hr
    rw [mem_sortInts] at hmem
    rcases List.mem_flatMap.mp hmem with ⟨fi, hfi, hmem2⟩
    rcases (mem_get_available_rooms inv (fi + 1) r).mp hmem2 with ⟨pi, _, _, hget⟩
    exact hget

theorem book_rooms_ok (inv : Inventory) (num_rooms : Int) (res : BookingResult)
    (inv' : Inventory)
    (h : book_rooms inv num_rooms = (Except.ok res, inv')) :
    (∀ r ∈ res.booked_rooms, dictGet inv r false = true) ∧
    inv' = res.booked_rooms.foldl (fun d r => dictSet d r false) inv := by
  rw [book_rooms] at h
  by_cases h5 : num_rooms > 5
  · rw [if_pos h5] at h
    exact absurd h (by simp)
  rw [if_neg h5] at h
  by_cases h0 : num_rooms ≤ 0
  · rw [if_pos h0] at h
    exact absurd h (by simp)
  rw [if_neg h0] at h
  by_cases hs : (find_best_rooms_single_floor inv num_rooms.toNat).1.isEmpty
  · rw [if_pos hs] at h
    by_cases hm : (find_best_rooms_multi_floor inv num_rooms.toNat).1.isEmpty
    · rw [if_pos hm] at h
      exact absurd h (by simp)
    · rw [if_neg hm] at h
      injection h with h1 h2
      injection h1 with h1
      subst h1
      subst h2
      refine ⟨?_, rfl⟩
      intro r hr
      exact free_of_multi_result inv num_rooms.toNat r hr
  · rw [if_neg hs] at h
    injection h with h1 h2
    injection h1 with h1
    subst h1
    subst h2
    refine ⟨?_, rfl⟩
    intro r hr
    exact free_of_single_result inv num_rooms.toNat r hr

theorem cancel_booking_all_valid (rooms : List Int) (inv : Inventory)
    (h : ∀ r ∈ rooms, dictContains inv r = true) :
    cancel_booking inv rooms =
      (Except.ok (), rooms.foldl (fun d r => dictSet d r true) inv) := by
  induction rooms generalizing inv with
  | nil => rfl
  | cons r rs ih =>
      have h1 : dictContains inv r = true := h r (by simp)
      rw [cancel_booking, if_pos h1, List.foldl_cons]
      apply ih
      intro x hx
      rw [dictContains_eq_of_keys_eq _ inv _ (dictKeys_dictSet _ _ _ h1)]
      exact h x (by simp [hx])

theorem cancel_booking_first_invalid (pre : List Int) (inv : Inventory) (bad : Int)
    (rest : List Int)
    (hpre : ∀ r ∈ pre, dictContains inv r = true)
    (hbad : dictContains inv bad = false) :
    cancel_booking inv (pre ++ bad :: rest) =
      (Except.error ("Room " ++ toString bad ++ " is not a valid room."),
       pre.foldl (fun d r => dictSet d r true) inv) := by
  induction pre generalizing inv with
  | nil =>
      rw [List.nil_append, cancel_booking, if_neg (by simp [hbad]), List.foldl_nil]
  | cons r rs ih =>
      have h1 : dictContains inv r = true := hpre r (by simp)
      rw [List.cons_append, cancel_booking, if_pos h1, List.foldl_cons]
      apply ih
      · intro x hx
        rw [dictContains_eq_of_keys_eq _ inv _ (dictKeys_dictSet _ _ _ h1)]
        exact hpre x (by simp [hx])
      · rw [dictContains_eq_of_keys_eq _ inv _ (dictKeys_dictSet _ _ _ h1)]
        exact hbad

theorem find?_first (p : Int → Bool) (pre : List Int) (bad : Int) (rest : List Int)
    (hpre : ∀ a ∈ pre, p a = false) (hbad : p bad = true) :
    (pre ++ bad :: rest).find? p = some bad := by
  induction pre with
  | nil =>
      rw [List.nil_append]
      simp [List.find?_cons, hbad]
  | cons a pre2 ih =>
      have ha : p a = false := hpre a (by simp)
      rw [List.cons_append]
      simp only [List.find?_cons, ha]
      exact ih (fun x hx => hpre x (by simp [hx]))

theorem book_specific_first_bad (inv : Inventory) (pre : List Int) (bad : Int)
    (rest : List Int)
    (hpre : ∀ r ∈ pre, dictGet inv r false = true)
    (hbad : dictGet inv bad false = false) :
    book_specific_rooms inv (pre ++ bad :: rest) =
      (Except.error ("Room " ++ toString bad ++ " is not available."), inv) := by
  have hfind : (pre ++ bad :: rest).find?
      (fun room => !(dictContains inv room) || !(dictGet inv room false)) = some bad := by
    apply find?_first
    · intro a ha
      have hg := hpre a ha
      have hc := dictContains_of_dictGet_true inv a hg
      simp [hg, hc]
    · simp [hbad]
  rw [book_specific_rooms, hfind]

theorem dictKeys_foldl_dictSet_const (rooms : List Int) (inv : Inventory) (v : Bool)
    (h : ∀ r ∈ rooms, dictContains inv r = true) :
    dictKeys (rooms.foldl (fun d r => dictSet d r v) inv) = dictKeys inv :=
  dictKeys_foldl_dictSet rooms inv (fun _ => v) h

theorem rooms_per_floor_getD_eq (fi : Nat) (hfi : fi < 10) :
    rooms_per_floor.getD fi 0 = if fi + 1 ≤ 9 then 10 else 7 := by
  interval_cases fi <;> decide

theorem init_contains_iff (r : Int) :
    dictContains initialize_rooms r = true ↔ specValidRoomId r := by
  rw [dictContains_iff_mem_keys]
  constructor
  · intro h
    simp only [dictKeys, initialize_rooms, List.mem_map, List.mem_flatMap,
      List.mem_range] at h
    rcases h with ⟨p, ⟨fi, hfi, hp⟩, hfst⟩
    rcases hp with ⟨ri, hri, hpe⟩
    subst hpe
    have hfi10 : fi < 10 := hfi
    rw [rooms_per_floor_getD_eq fi hfi10] at hri
    refine ⟨fi + 1, ri + 1, by omega, by omega, by omega, ?_, ?_⟩
    · by_cases hc : fi + 1 ≤ 9 <;>
        simp only [hc, if_true, if_false] <;> simp [hc] at hri <;> omega
    · rw [← hfst]
  · rintro ⟨f, p, hf1, hf10, hp1, hple, rfl⟩
    simp only [dictKeys, initialize_rooms, List.mem_map, List.mem_flatMap,
      List.mem_range]
    refine ⟨((f : Int) * 100 + (p : Int), true), ⟨f - 1, ?_, ?_⟩, rfl⟩
    · show f - 1 < 10
      omega
    · refine ⟨p - 1, ?_, ?_⟩
      · rw [rooms_per_floor_getD_eq (f - 1) (by omega)]
        have hfe : f - 1 + 1 = f := by omega
        rw [hfe]
        by_cases hc : f ≤ 9 <;>
          simp only [hc, if_true, if_false] <;> simp [hc] at hple <;> omega
      · have hfe : f - 1 + 1 = f := by omega
        have hpe : p - 1 + 1 = p := by omega
        rw [hfe, hpe]

theorem book_rooms_keys (inv : Inventory) (num_rooms : Int) :
    dictKeys (book_rooms inv num_rooms).2 = dictKeys inv := by
  rw [book_rooms]
  by_cases h5 : num_rooms > 5
  · rw [if_pos h5]
  rw [if_neg h5]
  by_cases h0 : num_rooms ≤ 0
  · rw [if_pos h0]
  rw [if_neg h0]
  by_cases hs : (find_best_rooms_single_floor inv num_rooms.toNat).1.isEmpty
  · rw [if_pos hs]
    by_cases hm : (find_best_rooms_multi_floor inv num_rooms.toNat).1.isEmpty
    · rw [if_pos hm]
    · rw [if_neg hm]
      exact dictKeys_foldl_dictSet_const _ _ _ (fun r hr =>
        dictContains_of_dictGet_true inv r (free_of_multi_result inv _ r hr))
  · rw [if_neg hs]
    exact dictKeys_foldl_dictSet_const _ _ _ (fun r hr =>
      dictContains_of_dictGet_true inv r (free_of_single_result inv _ r hr))

theorem book_specific_keys (inv : Inventory) (rooms : List Int) :
    dictKeys (book_specific_rooms inv rooms).2 = dictKeys inv := by
  rw [book_specific_rooms]
  cases hf : rooms.find? (fun room => !(dictContains inv room) || !(dictGet inv room false)) with
  | some room => rfl
  | none =>
      have hall := List.find?_eq_none.mp hf
      apply dictKeys_foldl_dictSet_const
      intro r hr
      have hp := hall r hr
      cases hcv : dictContains inv r
      · exact absurd (by simp [hcv]) hp
      · rfl

theorem cancel_keys (inv : Inventory) (rooms : List Int) :
    dictKeys (cancel_booking inv rooms).2 = dictKeys inv := by
  induction rooms generalizing inv with
  | nil => rfl
  | cons r rs ih =>
      rw [cancel_booking]
      by_cases hc : dictContains inv r = true
      · rw [if_pos hc, ih (dictSet inv r true), dictKeys_dictSet _ _ _ hc]
      · rw [if_neg hc]

theorem generate_random_keys (inv : Inventory) (rand : Int → Bool) :
    dictKeys (generate_random_occupancy inv rand) = dictKeys inv := by
  rw [generate_random_occupancy]
  apply dictKeys_foldl_dictSet
  intro r hr
  rw [dictContains_iff_mem_keys]
  exact hr

/-- C1 (corrected): cancellation is NOT atomic.  The amended contract:
identifiers are processed in request order; if every identifier is a key
of the inventory the whole batch is freed, but on the first unknown
identifier the call stops with an error naming it while the rooms already
visited stay freed (partial mutation). -/
theorem c1_cancel_partial_mutation (inv : Inventory) (rooms : List Int) :
    ((∀ r ∈ rooms, dictContains inv r = true) →
      cancel_booking inv rooms =
        (Except.ok (), rooms.foldl (fun d r => dictSet d r true) inv)) ∧
    (∀ pre bad rest, rooms = pre ++ bad :: rest →
      (∀ r ∈ pre, dictContains inv r = true) →
      dictContains inv bad = false →
      cancel_booking inv rooms =
        (Except.error ("Room " ++ toString bad ++ " is not a valid room."),
         pre.foldl (fun d r => dictSet d r true) inv)) := by
  constructor
  · exact cancel_booking_all_valid rooms inv
  · rintro pre bad rest rfl hpre hbad
    exact cancel_booking_first_invalid pre inv bad rest hpre hbad

/-- C1 counterexample: with room 101 occupied, `Cancel([101, 999])` fails
naming 999, yet room 101 — listed earlier in the same batch — has been
flipped from occupied to free, so the inventory is not "exactly as it was
before the call". -/
theorem c1_counterexample :
    (cancel_booking occupied101 [101, 999]).1 =
      Except.error "Room 999 is not a valid room." ∧
    dictGet occupied101 101 false = false ∧
    dictGet (cancel_booking occupied101 [101, 999]).2 101 false = true := by
  decide

/-- C1 witness: the amended theorem applied at the counterexample input. -/
theorem c1_witness :
    cancel_booking occupied101 ([101] ++ 999 :: []) =
      (Except.error ("Room " ++ toString (999 : Int) ++ " is not a valid room."),
       ([101] : List Int).foldl (fun d r => dictSet d r true) occupied101) :=
  (c1_cancel_partial_mutation occupied101 ([101] ++ 999 :: [])).2 [101] 999 []
    rfl (by decide) (by decide)

/-- C2 (corrected): `BookSpecific` fails with no mutation on the first
requested room that is unknown or occupied, naming that room — but the
two cases are NOT distinguished: both produce the very same
"Room r is not available." error. -/
theorem c2_book_specific_uniform_error (inv : Inventory) (pre : List Int)
    (bad : Int) (rest : List Int)
    (hpre : ∀ r ∈ pre, dictGet inv r false = true)
    (hbad : dictGet inv bad false = false) :
    book_specific_rooms inv (pre ++ bad :: rest) =
      (Except.error ("Room " ++ toString bad ++ " is not available."), inv) :=
  book_specific_first_bad inv pre bad rest hpre hbad

/-- C2 counterexample: the unknown identifier 999 and the occupied room
101 both yield the same "is not available." error from `BookSpecific`;
no `UnknownRoom`-classified error is produced (contrast the distinct
"is not a valid room." wording that `Cancel` uses for unknown ids). -/
theorem c2_counterexample :
    (book_specific_rooms initialize_rooms [999]).1 =
      Except.error "Room 999 is not available." ∧
    (book_specific_rooms occupied101 [101]).1 =
      Except.error "Room 101 is not available." ∧
    cancel_booking initialize_rooms [999] =
      (Except.error "Room 999 is not a valid room.", initialize_rooms) := by
  decide

/-- C2 witness: the amended theorem applied at the unknown id 999 on the
fresh inventory. -/
theorem c2_witness :
    book_specific_rooms initialize_rooms ([] ++ 999 :: []) =
      (Except.error ("Room " ++ toString (999 : Int) ++ " is not available."),
       initialize_rooms) :=
  c2_book_specific_uniform_error initialize_rooms [] 999 [] (by decide) (by decide)

/-- C3 (confirmed): for 1 ≤ N ≤ 5, if some floor has at least N free
rooms then `BookAuto` succeeds with a `single-floor` classification and
all returned rooms lie on one floor — the multi-floor fallback is never
chosen when a single floor qualifies. -/
theorem c3_book_auto_single_floor_preferred (inv : Inventory) (n : Nat)
    (h1 : 1 ≤ n) (h5 : n ≤ 5) (fi : Nat) (hfi : fi < floors)
    (hq : n ≤ (get_available_rooms_on_floor inv (fi + 1)).length) :
    ∃ w inv2,
      book_rooms inv (n : Int) =
        (Except.ok ⟨w, score w, BookingType.singleFloor⟩, inv2) ∧
      w ≠ [] ∧ (∃ g : Int, ∀ r ∈ w, r / 100 = g) := by
  have hne : singleFloorCandidates inv n ≠ [] := by
    intro hnil
    have := (singleFloorCandidates_eq_nil_iff inv n).mp hnil fi hfi
    omega
  rcases selectBest_spec _ hne with ⟨pre, w, post, hdec, hfold, hpre, hpost⟩
  have hmem := mem_of_decomp _ _ _ _ hdec
  have hbest : find_best_rooms_single_floor inv n = (w, some (score w)) := by
    rw [find_best_single_eq]
    exact hfold
  have hwlen : w.length = n := length_of_mem_candidates inv n w hmem
  have hwne : w ≠ [] := by
    intro hnil
    rw [hnil] at hwlen
    simp only [List.length_nil] at hwlen
    omega
  refine ⟨w, w.foldl (fun d r => dictSet d r false) inv, ?_, hwne,
    floor_of_mem_candidates inv n w hmem⟩
  have htonat : ((n : Int)).toNat = n := by omega
  rw [book_rooms, if_neg (by omega : ¬ (n : Int) > 5),
    if_neg (by omega : ¬ (n : Int) ≤ 0), htonat, hbest,
    if_neg (by simpa [List.isEmpty_iff] using hwne)]
  rfl

/-- C3 witness: on the fresh inventory with N = 3 and floor 1 qualifying. -/
theorem c3_witness :
    ∃ w inv2,
      book_rooms initialize_rooms ((3 : Nat) : Int) =
        (Except.ok ⟨w, score w, BookingType.singleFloor⟩, inv2) ∧
      w ≠ [] ∧ (∃ g : Int, ∀ r ∈ w, r / 100 = g) :=
  c3_book_auto_single_floor_preferred initialize_rooms 3 (by decide) (by decide) 0
    (by decide) (by decide)

/-- C4 (confirmed): the single-floor search returns the empty set with
infinite cost (`none`) when no floor has N free rooms; otherwise it
returns a contiguous window of N free rooms of some floor's free-room
list whose endpoint travel time is minimal over every window scanned on
every floor, and ties keep the first-found window in ascending floor
order then ascending start order (every earlier candidate scores
strictly worse). -/
theorem c4_single_floor_search_minimal_window (inv : Inventory) (n : Nat)
    (hn : 1 ≤ n) :
    ((∀ fi, fi < floors → (get_available_rooms_on_floor inv (fi + 1)).length < n) →
      find_best_rooms_single_floor inv n = ([], none)) ∧
    (∀ fi, fi < floors → n ≤ (get_available_rooms_on_floor inv (fi + 1)).length →
      ∃ pre w post,
        singleFloorCandidates inv n = pre ++ w :: post ∧
        find_best_rooms_single_floor inv n = (w, some (score w)) ∧
        (∃ f2 i, f2 < floors ∧
          i + n ≤ (get_available_rooms_on_floor inv (f2 + 1)).length ∧
          w = ((get_available_rooms_on_floor inv (f2 + 1)).drop i).take n) ∧
        (∀ r ∈ w, dictGet inv r false = true) ∧
        (∀ c ∈ singleFloorCandidates inv n, score w ≤ score c) ∧
        (∀ c ∈ pre, score w < score c) ∧
        (∀ c ∈ post, score w ≤ score c)) := by
  constructor
  · intro hall
    rw [find_best_single_eq, (singleFloorCandidates_eq_nil_iff inv n).mpr hall,
      selectBest_nil]
  · intro fi hfi hq
    have hne : singleFloorCandidates inv n ≠ [] := by
      intro hnil
      have := (singleFloorCandidates_eq_nil_iff inv n).mp hnil fi hfi
      omega
    rcases selectBest_spec _ hne with ⟨pre, w, post, hdec, hfold, hpre, hpost⟩
    have hmem := mem_of_decomp _ _ _ _ hdec
    rcases (mem_singleFloorCandidates inv n w).mp hmem with ⟨f2, hf2, hn2, hw⟩
    rcases (mem_windows _ _ _ hn2).mp hw with ⟨i, hi, hwi⟩
    refine ⟨pre, w, post, hdec, ?_, ⟨f2, i, hf2, hi, hwi⟩,
      free_of_mem_candidates inv n w hmem,
      score_min_of_decomp _ _ _ _ hdec hpre hpost, hpre, hpost⟩
    rw [find_best_single_eq]
    exact hfold

/-- C4 witness: the fresh inventory with N = 3, floor 1 qualifying. -/
theorem c4_witness :
    ∃ pre w post,
      singleFloorCandidates initialize_rooms 3 = pre ++ w :: post ∧
      find_best_rooms_single_floor initialize_rooms 3 = (w, some (score w)) ∧
      (∃ f2 i, f2 < floors ∧
        i + 3 ≤ (get_available_rooms_on_floor initialize_rooms (f2 + 1)).length ∧
        w = ((get_available_rooms_on_floor initialize_rooms (f2 + 1)).drop i).take 3) ∧
      (∀ r ∈ w, dictGet initialize_rooms r false = true) ∧
      (∀ c ∈ singleFloorCandidates initialize_rooms 3, score w ≤ score c) ∧
      (∀ c ∈ pre, score w < score c) ∧
      (∀ c ∈ post, score w ≤ score c) :=
  (c4_single_floor_search_minimal_window initialize_rooms 3 (by decide)).2 0
    (by decide) (by decide)

/-- C5 (confirmed): whenever `BookAuto` succeeds, every returned room was
free at call time, each returned room is occupied afterwards, and every
other room's occupancy is untouched. -/
theorem c5_book_auto_frame (inv : Inventory) (num_rooms : Int)
    (res : BookingResult) (inv2 : Inventory)
    (h : book_rooms inv num_rooms = (Except.ok res, inv2)) (r : Int) :
    (r ∈ res.booked_rooms →
      dictGet inv r false = true ∧ dictGet inv2 r false = false) ∧
    (r ∉ res.booked_rooms → dictGet inv2 r false = dictGet inv r false) := by
  rcases book_rooms_ok inv num_rooms res inv2 h with ⟨hfree, hstate⟩
  subst hstate
  constructor
  · intro hr
    refine ⟨hfree r hr, ?_⟩
    rw [dictGet_foldl_dictSet, if_pos hr]
  · intro hr
    rw [dictGet_foldl_dictSet, if_neg hr]

/-- C5 witness: booking one room on the fresh inventory books exactly 101. -/
theorem c5_witness :
    ((101 : Int) ∈ ([101] : List Int) →
      dictGet initialize_rooms 101 false = true ∧
      dictGet (dictSet initialize_rooms 101 false) 101 false = false) ∧
    ((101 : Int) ∉ ([101] : List Int) →
      dictGet (dictSet initialize_rooms 101 false) 101 false =
        dictGet initialize_rooms 101 false) :=
  c5_book_auto_frame initialize_rooms 1 ⟨[101], 0, BookingType.singleFloor⟩
    (dictSet initialize_rooms 101 false) (by decide) 101

/-- C6 (confirmed): cancelling exactly the rooms a successful `BookAuto`
returned restores every room's free/occupied status to its pre-booking
value. -/
theorem c6_cancel_roundtrip (inv : Inventory) (num_rooms : Int)
    (res : BookingResult) (inv2 : Inventory)
    (h : book_rooms inv num_rooms = (Except.ok res, inv2)) :
    ∃ inv3, cancel_booking inv2 res.booked_rooms = (Except.ok (), inv3) ∧
      ∀ r : Int, dictGet inv3 r false = dictGet inv r false := by
  rcases book_rooms_ok inv num_rooms res inv2 h with ⟨hfree, hstate⟩
  subst hstate
  have hcont : ∀ x ∈ res.booked_rooms, dictContains inv x = true :=
    fun x hx => dictContains_of_dictGet_true inv x (hfree x hx)
  have hkeys := dictKeys_foldl_dictSet_const res.booked_rooms inv false hcont
  have hvalid : ∀ x ∈ res.booked_rooms,
      dictContains (res.booked_rooms.foldl (fun d r => dictSet d r false) inv) x
        = true := by
    intro x hx
    rw [dictContains_eq_of_keys_eq _ inv _ hkeys]
    exact hcont x hx
  refine ⟨_, cancel_booking_all_valid _ _ hvalid, ?_⟩
  intro r
  rw [dictGet_foldl_dictSet, dictGet_foldl_dictSet]
  by_cases hr : r ∈ res.booked_rooms
  · rw [if_pos hr]
    exact (hfree r hr).symm
  · rw [if_neg hr, if_neg hr]

/-- C6 witness: book one room on the fresh inventory, cancel it. -/
theorem c6_witness :
    ∃ inv3,
      cancel_booking (dictSet initialize_rooms 101 false) ([101] : List Int) =
        (Except.ok (), inv3) ∧
      ∀ r : Int, dictGet inv3 r false = dictGet initialize_rooms r false :=
  c6_cancel_roundtrip initialize_rooms 1 ⟨[101], 0, BookingType.singleFloor⟩
    (dictSet initialize_rooms 101 false) (by decide)

/-- C7 (confirmed): any requested count outside 1..5 makes `BookAuto`
return the corresponding out-of-range error and leave the inventory
unchanged. -/
theorem c7_book_auto_invalid_request (inv : Inventory) (num_rooms : Int)
    (h : num_rooms < 1 ∨ num_rooms > 5) :
    book_rooms inv num_rooms =
      (Except.error (if num_rooms > 5 then "Maximum 5 rooms per booking allowed."
        else "Invalid number of rooms requested."), inv) := by
  rw [book_rooms]
  by_cases h5 : num_rooms > 5
  · rw [if_pos h5, if_pos h5]
  · have h0 : num_rooms ≤ 0 := by omega
    rw [if_neg h5, if_pos h0, if_neg h5]

/-- C7 witness: N = 6 on the fresh inventory. -/
theorem c7_witness :
    book_rooms initialize_rooms 6 =
      (Except.error (if (6 : Int) > 5 then "Maximum 5 rooms per booking allowed."
        else "Invalid number of rooms requested."), initialize_rooms) :=
  c7_book_auto_invalid_request initialize_rooms 6 (by decide)

/-- C8 (confirmed): the travel-time metric is
2·|floor(a) − floor(b)| + |pos(a) − pos(b)| with floor = id / 100 and
pos = id % 100 (Euclidean, as Python's divmod), it is symmetric, and it
is zero on equal rooms. -/
theorem c8_travel_time_metric (a b : Int) :
    travel_time a b = 2 * (a / 100 - b / 100).natAbs + (a % 100 - b % 100).natAbs ∧
    travel_time a b = travel_time b a ∧
    travel_time a a = 0 := by
  refine ⟨?_, ?_, ?_⟩ <;> simp only [travel_time] <;> omega

/-- C9 (confirmed): the key set of the freshly initialized inventory is
exactly the valid-room-identifier set of the fixed topology, and every
operation — automatic booking, specific booking, cancellation (also on
its error path), randomize and reset — preserves the key set. -/
theorem c9_key_set_invariant :
    (∀ r : Int, dictContains initialize_rooms r = true ↔ specValidRoomId r) ∧
    (∀ inv num_rooms, dictKeys (book_rooms inv num_rooms).2 = dictKeys inv) ∧
    (∀ inv rooms, dictKeys (book_specific_rooms inv rooms).2 = dictKeys inv) ∧
    (∀ inv rooms, dictKeys (cancel_booking inv rooms).2 = dictKeys inv) ∧
    (∀ inv rand, dictKeys (generate_random_occupancy inv rand) = dictKeys inv) ∧
    (∀ inv, dictKeys (reset inv) = dictKeys initialize_rooms) :=
  ⟨init_contains_iff, book_rooms_keys, book_specific_keys, cancel_keys,
    generate_random_keys, fun _ => rfl⟩

/-- C10 (confirmed, implicit behaviour): `BookSpecific([101, 101])` on
the fresh inventory succeeds — no distinctness check is made, the
availability check passes for each occurrence against the unmutated
state, the returned list keeps the caller's duplicates and order, and
room 101 ends up occupied. -/
theorem c10_duplicates_accepted :
    book_specific_rooms initialize_rooms [101, 101] =
      (Except.ok ⟨[101, 101], 0, BookingType.singleFloor⟩,
       dictSet initialize_rooms 101 false) ∧
    dictGet initialize_rooms 101 false = true ∧
    dictGet (book_specific_rooms initialize_rooms [101, 101]).2 101 false = false := by
  decide

end HotelBooking
